import Mathlib

/-!
# Teleprompter alignment engine — shallow embedding

This file embeds the alignment engine of the TopPanel component
(script segmentation, tokenization, the incremental transcript-matching
state machine, debounced auto-advance, and manual navigation) and proves
properties of the spec's claims about it.

Modelling conventions:
* Strings are `List Char` (the engine only slices, tokenizes and compares
  text, so character lists are a faithful model of JS strings here).
* JS numbers holding array indices are `Int` where the source can produce
  negative values (`Math.min(prev + 1, segments.length - 1)` with zero
  segments) and `Nat` where the source keeps them non-negative.
* The completion-ratio comparison `currentMatchIndex / currentTokens.length
  > 0.6` is modelled exactly over naturals (`6 * len < 10 * cmi`); the
  float and the exact comparison agree at every ratio a token table of
  realistic size can produce, and the source's explicit `len = 0 → ratio
  := 1` default is kept.
* The single `scrollTimeoutRef` slot is a `TimerKind`: it can hold the
  auto-advance debounce callback or the wheel-throttle callback, or be
  empty.  Firing a timer is an explicit transition.
* All definitions are executable and structurally recursive so concrete
  runs reduce by `decide`.
-/

namespace TuiliRec

/-- One character of the regex word-token class `[a-zA-Z0-9]`. -/
def isWordChar (c : Char) : Bool :=
  (decide (97 ≤ c.toNat) && decide (c.toNat ≤ 122)) ||
  (decide (65 ≤ c.toNat) && decide (c.toNat ≤ 90)) ||
  (decide (48 ≤ c.toNat) && decide (c.toNat ≤ 57))

/-- The CJK character class `[一-龥぀-ヿ가-힯]`
used by both `isCJK` and the tokenizer regex in the source. -/
def isCJKChar (c : Char) : Bool :=
  (decide (0x4e00 ≤ c.toNat) && decide (c.toNat ≤ 0x9fa5)) ||
  (decide (0x3040 ≤ c.toNat) && decide (c.toNat ≤ 0x30ff)) ||
  (decide (0xac00 ≤ c.toNat) && decide (c.toNat ≤ 0xd7af))

/-- JS `\s` / `String.prototype.trim` whitespace class. -/
def isWhitespaceChar (c : Char) : Bool :=
  (decide (9 ≤ c.toNat) && decide (c.toNat ≤ 13)) ||
  decide (c.toNat = 32) || decide (c.toNat = 0xa0) ||
  decide (c.toNat = 0x1680) ||
  (decide (0x2000 ≤ c.toNat) && decide (c.toNat ≤ 0x200a)) ||
  decide (c.toNat = 0x2028) || decide (c.toNat = 0x2029) ||
  decide (c.toNat = 0x202f) || decide (c.toNat = 0x205f) ||
  decide (c.toNat = 0x3000) || decide (c.toNat = 0xfeff)

/-- The terminal-punctuation class `[.!?。！？]` of the segmenter regex. -/
def isTerminalPunct (c : Char) : Bool :=
  c == '.' || c == '!' || c == '?' || c == '。' || c == '！' || c == '？'

/-- JS `token.toLowerCase()`.  Tokens consist of ASCII alphanumerics or CJK
characters, on which per-character lowering agrees with JS. -/
def lowerStr (s : List Char) : List Char :=
  s.map Char.toLower

/-!
## Tokenizer

Source:
```
const regex = /[a-zA-Z0-9]+|[一-龥぀-ヿ가-힯]/g;
let match;
while ((match = regex.exec(segment)) !== null) tokens.push(match[0]);
```
The regex scan is rendered as a left-to-right pass carrying the current
(reversed) alphanumeric run: a maximal `[a-zA-Z0-9]+` run is one token,
each CJK character is its own token, every other character is skipped.
-/

/-- The regex scan of `parseSegmentToTokens`; the first argument is the
alphanumeric run currently being read (in reverse), if any. -/
def scanTokens : Option (List Char) → List Char → List (List Char)
  | none, [] => []
  | some run, [] => [run.reverse]
  | none, c :: rest =>
    if isWordChar c then scanTokens (some [c]) rest
    else if isCJKChar c then [c] :: scanTokens none rest
    else scanTokens none rest
  | some run, c :: rest =>
    if isWordChar c then scanTokens (some (c :: run)) rest
    else if isCJKChar c then run.reverse :: [c] :: scanTokens none rest
    else run.reverse :: scanTokens none rest

/-- Source `parseSegmentToTokens`: English words or individual CJK characters. -/
def parseSegmentToTokens (segment : List Char) : List (List Char) :=
  scanTokens none segment

/-!
## Segmenter

Source:
```
teleprompterScript
  .replace(/([.!?。！？])\s*/g, "$1|")
  .split('|')
  .map(s => s.trim())
  .filter(s => s.length > 0)
```
-/

/-- The `replace(/([.!?。！？])\s*\/g, "$1|")` pass.  The flag records
that the scan is inside the `\s*` run following a terminal mark (that
whitespace is consumed by the match and not re-emitted). -/
def insertSepGo : Bool → List Char → List Char
  | _, [] => []
  | skip, c :: rest =>
    if skip && isWhitespaceChar c then insertSepGo true rest
    else if isTerminalPunct c then c :: '|' :: insertSepGo true rest
    else c :: insertSepGo false rest

def insertSep (l : List Char) : List Char :=
  insertSepGo false l

/-- JS `split('|')`. -/
def splitSep : List Char → List (List Char)
  | [] => [[]]
  | c :: rest =>
    let r := splitSep rest
    if c = '|' then [] :: r
    else (c :: r.headI) :: r.tail

/-- JS `trim()`. -/
def trimChars (l : List Char) : List Char :=
  ((l.dropWhile isWhitespaceChar).reverse.dropWhile isWhitespaceChar).reverse

/-- The `segments` table: split at terminal punctuation (punctuation kept
with the preceding unit), trim, drop empties.  The source's
`if (!teleprompterScript) return []` early-out coincides with the
pipeline's value on `[]`. -/
def segments (teleprompterScript : List Char) : List (List Char) :=
  ((splitSep (insertSep teleprompterScript)).map trimChars).filter
    (fun s => !s.isEmpty)

/-!
## Alignment state machine
-/

/-- Contents of the single `scrollTimeoutRef` slot: empty, the
auto-advance debounce callback, or the wheel-throttle callback. -/
inductive TimerKind : Type
  | noTimer
  | autoAdvance
  | wheelThrottle
deriving DecidableEq

/-- The per-script read-only tables: `segmentTokensMap`
(`segments.map(parseSegmentToTokens)`). -/
structure ScriptCtx : Type where
  segmentTokensMap : List (List (List Char))
deriving DecidableEq

/-- The value `segments.length` (equal to `segmentTokensMap.length`). -/
def ScriptCtx.segLen (ctx : ScriptCtx) : Nat :=
  ctx.segmentTokensMap.length

/-- Build the tables from the raw script text. -/
def mkCtx (teleprompterScript : List Char) : ScriptCtx :=
  ⟨(segments teleprompterScript).map parseSegmentToTokens⟩

/-- The mutable state: `activeSegmentIndex`, `matchedWordCount`,
`lastTranscriptLengthRef` and the `scrollTimeoutRef` slot. -/
structure MachineState : Type where
  activeSegmentIndex : Int
  matchedWordCount : Nat
  consumedLen : Nat
  timer : TimerKind
deriving DecidableEq

/-- The reset value `(0, 0, 0)` with an empty timer slot. -/
def initState : MachineState :=
  ⟨0, 0, 0, TimerKind.noTimer⟩

/-- JS indexing of `segmentTokensMap[i]`: a negative or out-of-range
index yields `undefined` (`none`). -/
def getSeg (ctx : ScriptCtx) (i : Int) : Option (List (List Char)) :=
  if i < 0 then none else ctx.segmentTokensMap[i.toNat]?

/-- The greedy forward search
```
for (let offset = 0; offset <= 4; offset++) {
    const checkIndex = currentMatchIndex + offset;
    if (checkIndex >= currentTokens.length) break;
    if (spokenClean === currentTokens[checkIndex].toLowerCase()) { ... }
}
```
rendered with the remaining offset budget as fuel (`start` is
`currentMatchIndex + offset`).  Out-of-range access is the `break`. -/
def searchFrom (cur : List (List Char)) (spoken : List Char) :
    Nat → Nat → Option Nat
  | _, 0 => none
  | start, fuel + 1 =>
    match cur[start]? with
    | none => none
    | some t => if lowerStr t = spoken then some start
                else searchFrom cur spoken (start + 1) fuel

/-- Local match: first hit among positions `cmi, cmi+1, ..., cmi+4`. -/
def localSearch (cur : List (List Char)) (cmi : Nat) (spoken : List Char) :
    Option Nat :=
  searchFrom cur spoken cmi 5

/-- Walk the next segment's tokens
(`for (let j = 0; j < Math.min(3, nextTokens.length); j++)`),
stopping after index 2. -/
def jumpSearchAux (spoken : List Char) :
    List (List Char) → Nat → Option Nat
  | [], _ => none
  | t :: ts, j =>
    if 3 ≤ j then none
    else if lowerStr t = spoken then some j
    else jumpSearchAux spoken ts (j + 1)

/-- Search the first 3 tokens of the next segment for the spoken token. -/
def jumpSearch (next : List (List Char)) (spoken : List Char) : Option Nat :=
  jumpSearchAux spoken next 0

/-- The jump guard
`activeSegmentIndex < segments.length - 1 && completionRatio > 0.6`
with `completionRatio = len > 0 ? cmi / len : 1`.
`cmi / len > 0.6` is `6 * len < 10 * cmi` exactly. -/
def jumpEligible (ctx : ScriptCtx) (idx : Int) (cur : List (List Char))
    (cmi : Nat) : Bool :=
  decide (idx < (ctx.segLen : Int) - 1) &&
    (cur.isEmpty || decide (6 * cur.length < 10 * cmi))

/-- Result of the `for (const token of spokenTokens)` loop: either a jump
fired at offset `j` of the next segment (remaining spoken tokens
unprocessed), or the loop ran to completion with final
`currentMatchIndex`. -/
inductive LoopResult : Type
  | jumped (j : Nat)
  | done (cmi : Nat)
deriving DecidableEq

/-- The token loop of the matching effect: local match, else (under the
jump guard) a cross-segment lookahead in the first 3 tokens of the next
segment, else discard the token. -/
def matchLoop (ctx : ScriptCtx) (idx : Int) (cur : List (List Char)) :
    List (List Char) → Nat → LoopResult
  | [], cmi => LoopResult.done cmi
  | tok :: rest, cmi =>
    let spokenClean := lowerStr tok
    match localSearch cur cmi spokenClean with
    | some p => matchLoop ctx idx cur rest (p + 1)
    | none =>
      if jumpEligible ctx idx cur cmi then
        match getSeg ctx (idx + 1) with
        | some next =>
          match jumpSearch next spokenClean with
          | some j => LoopResult.jumped j
          | none => matchLoop ctx idx cur rest cmi
        | none => matchLoop ctx idx cur rest cmi
      else matchLoop ctx idx cur rest cmi

/-- The tail of the matching effect: on a jump, `activeSegmentIndex += 1`,
`matchedWordCount = j + 1`, `clearTimeout`; otherwise store the final
`currentMatchIndex` and, if the whole (non-empty) token table is matched
and no timer is pending, arm the auto-advance debounce. -/
def applyLoopResult (cur : List (List Char)) (st : MachineState) :
    LoopResult → MachineState
  | LoopResult.jumped j =>
    { st with activeSegmentIndex := st.activeSegmentIndex + 1,
              matchedWordCount := j + 1,
              timer := TimerKind.noTimer }
  | LoopResult.done cmi =>
    let st2 := { st with matchedWordCount := cmi }
    if 0 < cur.length ∧ cur.length ≤ cmi ∧ st2.timer = TimerKind.noTimer
    then { st2 with timer := TimerKind.autoAdvance }
    else st2

/-- One run of the matching effect on a new value of `transcript`:
no-op unless the transcript grew; otherwise slice off the new text,
move the cursor to the full length, tokenize, and run the token loop
against the active segment's token table (a missing table — end of
script — returns after the cursor update, as does an empty delta). -/
def consumeTranscriptDelta (ctx : ScriptCtx) (st : MachineState)
    (fullTranscript : List Char) : MachineState :=
  if fullTranscript.length ≤ st.consumedLen then st
  else
    let newText := fullTranscript.drop st.consumedLen
    let st1 := { st with consumedLen := fullTranscript.length }
    let spokenTokens := parseSegmentToTokens newText
    if spokenTokens.isEmpty then st1
    else
      match getSeg ctx st1.activeSegmentIndex with
      | none => st1
      | some cur =>
        applyLoopResult cur st1
          (matchLoop ctx st1.activeSegmentIndex cur spokenTokens
            st1.matchedWordCount)

/-- Source `handleManualScroll`: clamp the index move into
`[0, segments.length - 1]` and reset `matchedWordCount` when the index
actually changes.  The pending timer is left untouched by the source. -/
def handleManualScroll (segLen : Nat) (next : Bool) (st : MachineState) :
    MachineState :=
  let nextIdx : Int :=
    match next with
    | true => min (st.activeSegmentIndex + 1) ((segLen : Int) - 1)
    | false => max (st.activeSegmentIndex - 1) 0
  if nextIdx ≠ st.activeSegmentIndex then
    { st with activeSegmentIndex := nextIdx, matchedWordCount := 0 }
  else st

/-- Source `handleWheel`: ignored while any timer is pending (the throttle
check), else scroll by the sign of `deltaY` when its magnitude exceeds
20 and arm the wheel-throttle timer. -/
def handleWheel (segLen : Nat) (deltaY : Int) (st : MachineState) :
    MachineState :=
  if st.timer ≠ TimerKind.noTimer then st
  else if 20 < deltaY.natAbs then
    let st2 := handleManualScroll segLen (decide (0 < deltaY)) st
    { st2 with timer := TimerKind.wheelThrottle }
  else st

/-- Firing whatever callback sits in the timer slot: the auto-advance
debounce advances `activeSegmentIndex` capped at `segments.length` and
resets `matchedWordCount`; the wheel throttle only clears the slot. -/
def fireTimer (segLen : Nat) (st : MachineState) : MachineState :=
  match st.timer with
  | TimerKind.autoAdvance =>
    { st with activeSegmentIndex := min (st.activeSegmentIndex + 1) (segLen : Int),
              matchedWordCount := 0,
              timer := TimerKind.noTimer }
  | TimerKind.wheelThrottle => { st with timer := TimerKind.noTimer }
  | TimerKind.noTimer => st

/-- The reset effect on script change / feature toggle: position and
cursor to zero (the source does not clear the timer slot there). -/
def resetState (st : MachineState) : MachineState :=
  { st with activeSegmentIndex := 0, matchedWordCount := 0, consumedLen := 0 }

/-- One externally-triggered transition of the machine. -/
inductive Step (ctx : ScriptCtx) : MachineState → MachineState → Prop
  | delta (st : MachineState) (t : List Char) :
      Step ctx st (consumeTranscriptDelta ctx st t)
  | scroll (st : MachineState) (next : Bool) :
      Step ctx st (handleManualScroll ctx.segLen next st)
  | wheel (st : MachineState) (dy : Int) :
      Step ctx st (handleWheel ctx.segLen dy st)
  | fire (st : MachineState) :
      Step ctx st (fireTimer ctx.segLen st)
  | reset (st : MachineState) :
      Step ctx st (resetState st)

/-- States reachable from the initial state. -/
def Reachable (ctx : ScriptCtx) (st : MachineState) : Prop :=
  Relation.ReflTransGen (Step ctx) initState st

/-- The claimed state invariant. -/
def Inv (ctx : ScriptCtx) (st : MachineState) : Prop :=
  0 ≤ st.activeSegmentIndex ∧ st.activeSegmentIndex ≤ (ctx.segLen : Int) ∧
  ∀ cur, getSeg ctx st.activeSegmentIndex = some cur →
    st.matchedWordCount ≤ cur.length

/-!
## Helper lemmas about the search loops
-/

theorem searchFrom_some (cur : List (List Char)) (spoken : List Char) :
    ∀ (fuel start p : Nat), searchFrom cur spoken start fuel = some p →
      start ≤ p ∧ p < start + fuel ∧
      (∃ t, cur[p]? = some t ∧ lowerStr t = spoken) ∧
      (∀ q t, start ≤ q → q < p → cur[q]? = some t → lowerStr t ≠ spoken) := by
  intro fuel
  induction fuel with
  | zero => intro start p h; simp [searchFrom] at h
  | succ n ih =>
    intro start p h
    rw [searchFrom] at h
    cases hg : cur[start]? with
    | none => simp [hg] at h
    | some t =>
      simp only [hg] at h
      by_cases ht : lowerStr t = spoken
      · rw [if_pos ht] at h
        cases h
        refine ⟨le_refl _, by omega, ⟨t, hg, ht⟩, ?_⟩
        intro q tq hq hqp _
        omega
      · rw [if_neg ht] at h
        obtain ⟨h1, h2, h3, h4⟩ := ih (start + 1) p h
        refine ⟨by omega, by omega, h3, ?_⟩
        intro q tq hq hqp hget
        rcases Nat.eq_or_lt_of_le hq with hqs | hqs
        · subst hqs
          rw [hget] at hg
          cases hg
          exact ht
        · exact h4 q tq hqs hqp hget

theorem searchFrom_none (cur : List (List Char)) (spoken : List Char) :
    ∀ (fuel start : Nat),
      (∀ q t, start ≤ q → q < start + fuel → cur[q]? = some t →
        lowerStr t ≠ spoken) →
      searchFrom cur spoken start fuel = none := by
  intro fuel
  induction fuel with
  | zero => intro start _; rfl
  | succ n ih =>
    intro start hmiss
    rw [searchFrom]
    cases hg : cur[start]? with
    | none => rfl
    | some t =>
      dsimp only
      rw [if_neg (hmiss start t (le_refl _) (by omega) hg)]
      exact ih (start + 1) fun q tq hq hq2 hget =>
        hmiss q tq (by omega) (by omega) hget

theorem jumpSearchAux_some (spoken : List Char) :
    ∀ (l : List (List Char)) (j0 j : Nat),
      jumpSearchAux spoken l j0 = some j →
      j0 ≤ j ∧ j < 3 ∧ ∃ t, l[j - j0]? = some t ∧ lowerStr t = spoken := by
  intro l
  induction l with
  | nil => intro j0 j h; simp [jumpSearchAux] at h
  | cons t ts ih =>
    intro j0 j h
    rw [jumpSearchAux] at h
    by_cases h3 : 3 ≤ j0
    · rw [if_pos h3] at h; exact absurd h (by simp)
    · rw [if_neg h3] at h
      by_cases ht : lowerStr t = spoken
      · rw [if_pos ht] at h
        cases h
        exact ⟨le_refl _, by omega, t, by simp, ht⟩
      · rw [if_neg ht] at h
        obtain ⟨h1, h2, tt, hg, hl⟩ := ih (j0 + 1) j h
        refine ⟨by omega, h2, tt, ?_, hl⟩
        have hidx : j - j0 = (j - (j0 + 1)) + 1 := by omega
        rw [hidx]
        simpa using hg

theorem getElem?_lt_length {α : Type} {l : List α} {n : ℕ} {a : α}
    (h : l[n]? = some a) : n < l.length := by
  by_contra hn
  rw [List.getElem?_eq_none (by omega)] at h
  exact absurd h (by simp)

/-!
## Helper lemmas about the token loop
-/

theorem matchLoop_done_le (ctx : ScriptCtx) (idx : Int) (cur : List (List Char)) :
    ∀ (spoken : List (List Char)) (cmi cmi' : Nat),
      cmi ≤ cur.length → matchLoop ctx idx cur spoken cmi = LoopResult.done cmi' →
      cmi' ≤ cur.length := by
  intro spoken
  induction spoken with
  | nil =>
    intro cmi cmi' hle h
    rw [matchLoop] at h
    cases h
    exact hle
  | cons tok rest ih =>
    intro cmi cmi' hle h
    rw [matchLoop] at h
    cases hs : localSearch cur cmi (lowerStr tok) with
    | some p =>
      simp only [hs] at h
      obtain ⟨_, _, ⟨t, hget, _⟩, _⟩ := searchFrom_some cur (lowerStr tok) 5 cmi p hs
      exact ih (p + 1) cmi' (getElem?_lt_length hget) h
    | none =>
      simp only [hs] at h
      by_cases he : jumpEligible ctx idx cur cmi = true
      · rw [if_pos he] at h
        cases hg : getSeg ctx (idx + 1) with
        | none => simp only [hg] at h; exact ih cmi cmi' hle h
        | some next =>
          simp only [hg] at h
          cases hj : jumpSearch next (lowerStr tok) with
          | none => simp only [hj] at h; exact ih cmi cmi' hle h
          | some j => simp only [hj] at h; exact absurd h (by simp)
      · rw [if_neg he] at h
        exact ih cmi cmi' hle h

theorem matchLoop_jumped (ctx : ScriptCtx) (idx : Int) (cur : List (List Char)) :
    ∀ (spoken : List (List Char)) (cmi j : Nat),
      matchLoop ctx idx cur spoken cmi = LoopResult.jumped j →
      idx + 1 < (ctx.segLen : Int) ∧
      ∃ next, getSeg ctx (idx + 1) = some next ∧ j < next.length ∧ j < 3 := by
  intro spoken
  induction spoken with
  | nil => intro cmi j h; rw [matchLoop] at h; exact absurd h (by simp)
  | cons tok rest ih =>
    intro cmi j h
    rw [matchLoop] at h
    cases hs : localSearch cur cmi (lowerStr tok) with
    | some p => simp only [hs] at h; exact ih (p + 1) j h
    | none =>
      simp only [hs] at h
      by_cases he : jumpEligible ctx idx cur cmi = true
      · rw [if_pos he] at h
        cases hg : getSeg ctx (idx + 1) with
        | none =>
          simp only [hg] at h
          exfalso
          obtain ⟨_, next, hnext, _⟩ := ih cmi j h
          rw [hg] at hnext
          exact Option.noConfusion hnext
        | some next =>
          simp only [hg] at h
          cases hj : jumpSearch next (lowerStr tok) with
          | none =>
            simp only [hj] at h
            obtain ⟨h1, next2, hnext, h2⟩ := ih cmi j h
            rw [hg] at hnext
            cases hnext
            exact ⟨h1, next, rfl, h2⟩
          | some jj =>
            simp only [hj] at h
            cases h
            obtain ⟨_, hj3, t, hget, _⟩ := jumpSearchAux_some (lowerStr tok) next 0 j hj
            have hlt : idx < (ctx.segLen : Int) - 1 := by
              have := (Bool.and_eq_true _ _).mp he |>.1
              exact of_decide_eq_true this
            refine ⟨by omega, next, rfl, ?_, hj3⟩
            have := getElem?_lt_length hget
            omega
      · rw [if_neg he] at h
        exact ih cmi j h

/-!
## Helper lemmas about the delta processor
-/

theorem applyLoopResult_consumedLen (cur : List (List Char))
    (st : MachineState) (r : LoopResult) :
    (applyLoopResult cur st r).consumedLen = st.consumedLen := by
  cases r with
  | jumped j => rfl
  | done cmi =>
    rw [applyLoopResult]
    dsimp only
    split <;> rfl

theorem consume_of_le (ctx : ScriptCtx) (st : MachineState) (t : List Char)
    (h : t.length ≤ st.consumedLen) : consumeTranscriptDelta ctx st t = st := by
  rw [consumeTranscriptDelta, if_pos h]

theorem consumedLen_consume (ctx : ScriptCtx) (st : MachineState)
    (t : List Char) :
    (consumeTranscriptDelta ctx st t).consumedLen =
      max st.consumedLen t.length := by
  rw [consumeTranscriptDelta]
  split
  · next h => exact (Nat.max_eq_left h).symm
  · next h =>
    have hmax : max st.consumedLen t.length = t.length :=
      Nat.max_eq_right (by omega)
    dsimp only
    split
    · exact hmax.symm
    · cases hg : getSeg ctx st.activeSegmentIndex with
      | none => simp only [hg]; exact hmax.symm
      | some cur =>
        simp only [hg]
        rw [applyLoopResult_consumedLen]
        exact hmax.symm

/-!
## Invariant preservation
-/

theorem inv_delta (ctx : ScriptCtx) (st : MachineState) (t : List Char)
    (hinv : Inv ctx st) : Inv ctx (consumeTranscriptDelta ctx st t) := by
  rw [consumeTranscriptDelta]
  split
  · exact hinv
  · dsimp only
    split
    · exact hinv
    · cases hg : getSeg ctx st.activeSegmentIndex with
      | none => simp only [hg]; exact hinv
      | some cur =>
        simp only [hg]
        obtain ⟨hi0, hil, him⟩ := hinv
        cases hr : matchLoop ctx st.activeSegmentIndex cur
            (parseSegmentToTokens (t.drop st.consumedLen))
            st.matchedWordCount with
        | jumped j =>
          obtain ⟨hlt, next, hnext, hjlen, _⟩ :=
            matchLoop_jumped ctx st.activeSegmentIndex cur _ _ j hr
          rw [applyLoopResult]
          refine ⟨?_, ?_, ?_⟩
          · show (0 : Int) ≤ st.activeSegmentIndex + 1
            omega
          · show st.activeSegmentIndex + 1 ≤ (ctx.segLen : Int)
            omega
          · intro cur2 hcur2
            have hcur2b : getSeg ctx (st.activeSegmentIndex + 1) = some cur2 :=
              hcur2
            rw [hnext] at hcur2b
            cases hcur2b
            show j + 1 ≤ next.length
            omega
        | done cmi =>
          have hdone : cmi ≤ cur.length :=
            matchLoop_done_le ctx st.activeSegmentIndex cur _
              st.matchedWordCount cmi (him cur hg) hr
          rw [applyLoopResult]
          split <;>
          · refine ⟨hi0, hil, ?_⟩
            intro cur2 hcur2
            have hcur2b : getSeg ctx st.activeSegmentIndex = some cur2 := hcur2
            rw [hg] at hcur2b
            cases hcur2b
            exact hdone

theorem inv_scroll (ctx : ScriptCtx) (hne : 1 ≤ ctx.segLen) (next : Bool)
    (st : MachineState) (hinv : Inv ctx st) :
    Inv ctx (handleManualScroll ctx.segLen next st) := by
  obtain ⟨h0, hl, hm⟩ := hinv
  cases next with
  | true =>
    rw [handleManualScroll]
    split
    · refine ⟨?_, ?_, fun cur _ => Nat.zero_le _⟩
      · show (0 : Int) ≤
          min (st.activeSegmentIndex + 1) ((ctx.segLen : Int) - 1)
        rw [min_def]; split <;> omega
      · show min (st.activeSegmentIndex + 1) ((ctx.segLen : Int) - 1) ≤
          (ctx.segLen : Int)
        rw [min_def]; split <;> omega
    · exact ⟨h0, hl, hm⟩
  | false =>
    rw [handleManualScroll]
    split
    · refine ⟨?_, ?_, fun cur _ => Nat.zero_le _⟩
      · show (0 : Int) ≤ max (st.activeSegmentIndex - 1) 0
        rw [max_def]; split <;> omega
      · show max (st.activeSegmentIndex - 1) 0 ≤ (ctx.segLen : Int)
        rw [max_def]; split <;> omega
    · exact ⟨h0, hl, hm⟩

theorem inv_wheel (ctx : ScriptCtx) (hne : 1 ≤ ctx.segLen) (dy : Int)
    (st : MachineState) (hinv : Inv ctx st) :
    Inv ctx (handleWheel ctx.segLen dy st) := by
  rw [handleWheel]
  split
  · exact hinv
  · split
    · exact inv_scroll ctx hne (decide (0 < dy)) st hinv
    · exact hinv

theorem inv_fire (ctx : ScriptCtx) (st : MachineState) (hinv : Inv ctx st) :
    Inv ctx (fireTimer ctx.segLen st) := by
  obtain ⟨h0, hl, hm⟩ := hinv
  rw [fireTimer]
  cases st.timer with
  | autoAdvance =>
    refine ⟨?_, ?_, fun cur _ => Nat.zero_le _⟩
    · show (0 : Int) ≤ min (st.activeSegmentIndex + 1) (ctx.segLen : Int)
      rw [min_def]; split <;> omega
    · show min (st.activeSegmentIndex + 1) (ctx.segLen : Int) ≤
        (ctx.segLen : Int)
      rw [min_def]; split <;> omega
  | wheelThrottle => exact ⟨h0, hl, hm⟩
  | noTimer => exact ⟨h0, hl, hm⟩

theorem inv_reset (ctx : ScriptCtx) (st : MachineState) :
    Inv ctx (resetState st) :=
  ⟨le_refl 0, Int.natCast_nonneg _, fun _ _ => Nat.zero_le _⟩

theorem inv_init (ctx : ScriptCtx) : Inv ctx initState :=
  ⟨le_refl 0, Int.natCast_nonneg _, fun _ _ => Nat.zero_le _⟩

/-!
## Claims
-/

/-- Claim C6 (amended: the script must have at least one segment).  Every
state reachable from the initial state `(0, 0)` through transcript
deltas, manual navigation, wheel events, timer firings and resets
satisfies `0 ≤ activeSegmentIndex ≤ segments.length`, and whenever the
active segment exists, `matchedTokenCount` is at most its token count.
The unamended claim fails for the empty script (see the
counterexample): manual advance then computes
`Math.min(0 + 1, 0 - 1) = -1`. -/
theorem c6_reachable_states_satisfy_invariant (ctx : ScriptCtx)
    (hne : ctx.segmentTokensMap ≠ []) (st : MachineState)
    (hreach : Reachable ctx st) :
    0 ≤ st.activeSegmentIndex ∧ st.activeSegmentIndex ≤ (ctx.segLen : Int) ∧
    ∀ cur, getSeg ctx st.activeSegmentIndex = some cur →
      st.matchedWordCount ≤ cur.length := by
  have hlen : 1 ≤ ctx.segLen := by
    cases h : ctx.segmentTokensMap with
    | nil => exact absurd h hne
    | cons a l => simp [ScriptCtx.segLen, h]
  induction hreach with
  | refl => exact inv_init ctx
  | tail hab hbc ih =>
    cases hbc with
    | delta t => exact inv_delta ctx _ t ih
    | scroll nx => exact inv_scroll ctx hlen nx _ ih
    | wheel dy => exact inv_wheel ctx hlen dy _ ih
    | fire => exact inv_fire ctx _ ih
    | reset => exact inv_reset ctx _

/-- Witness for C6 at a concrete one-segment script and the (trivially
reachable) initial state. -/
theorem c6_witness :
    (mkCtx ("Hi.".toList)).segmentTokensMap ≠ [] ∧
    0 ≤ initState.activeSegmentIndex :=
  ⟨by decide,
   (c6_reachable_states_satisfy_invariant (mkCtx ("Hi.".toList)) (by decide)
      initState Relation.ReflTransGen.refl).1⟩

/-- Counterexample to C6.  With an empty script (zero segments) the
manual advance transition is reachable from the initial state and drives
`activeSegmentIndex` to `-1`, violating `0 ≤ activeSegmentIndex`. -/
theorem c6_counterexample :
    Reachable (mkCtx []) (handleManualScroll (mkCtx []).segLen true initState) ∧
    (handleManualScroll (mkCtx []).segLen true initState).activeSegmentIndex
      = -1 ∧
    ¬ (0 ≤ (handleManualScroll (mkCtx []).segLen true
        initState).activeSegmentIndex) := by
  refine ⟨Relation.ReflTransGen.single (Step.scroll initState true),
    by decide, by decide⟩

/-- Claim C3.  A call whose full transcript is no longer than the recorded
`consumedTranscriptLength` leaves the state unchanged (the source returns
before touching anything), and a single call never decreases
`consumedTranscriptLength`; hence it is non-decreasing across any
sequence of calls.  The embedding is total, so no exception can be
raised. -/
theorem c3_nonmonotonic_update_is_noop (ctx : ScriptCtx) (st : MachineState)
    (t : List Char) :
    (t.length ≤ st.consumedLen → consumeTranscriptDelta ctx st t = st) ∧
    st.consumedLen ≤ (consumeTranscriptDelta ctx st t).consumedLen :=
  ⟨consume_of_le ctx st t,
   by rw [consumedLen_consume]; exact Nat.le_max_left _ _⟩

/-- Witness for C3: a shorter transcript (2 characters against a cursor
of 5) is dropped without any state change. -/
theorem c3_witness :
    consumeTranscriptDelta (mkCtx ("Hi there.".toList))
      ⟨0, 0, 5, TimerKind.noTimer⟩ ("Hi".toList) =
      ⟨0, 0, 5, TimerKind.noTimer⟩ ∧
    (5 : Nat) ≤ (consumeTranscriptDelta (mkCtx ("Hi there.".toList))
      ⟨0, 0, 5, TimerKind.noTimer⟩ ("Hi".toList)).consumedLen :=
  ⟨(c3_nonmonotonic_update_is_noop (mkCtx ("Hi there.".toList))
      ⟨0, 0, 5, TimerKind.noTimer⟩ ("Hi".toList)).1 (by decide),
   (c3_nonmonotonic_update_is_noop (mkCtx ("Hi there.".toList))
      ⟨0, 0, 5, TimerKind.noTimer⟩ ("Hi".toList)).2⟩

/-- Claim C5 (amended).  The transcript cursor is moved to the full
transcript length *before* the token loop runs, so a delta that jumps
midway still consumes the whole transcript: a second call with the same
transcript is a complete no-op.  The spoken tokens after the jump are
therefore discarded, not "matched on the next call" — the next call only
sees text beyond the cursor (see the counterexample). -/
theorem c5_jump_discards_remaining_tokens (ctx : ScriptCtx)
    (st : MachineState) (t : List Char) :
    (consumeTranscriptDelta ctx st t).consumedLen =
      max st.consumedLen t.length ∧
    consumeTranscriptDelta ctx (consumeTranscriptDelta ctx st t) t =
      consumeTranscriptDelta ctx st t :=
  ⟨consumedLen_consume ctx st t,
   consume_of_le ctx _ t
     (by rw [consumedLen_consume]; exact Nat.le_max_right _ _)⟩

/-- Counterexample to C5.  Script `"Hello world. Testing one two."`,
transcript `"Hello world Testing one"` in one delta: the engine matches
`Hello world`, jumps into segment 1 on `Testing` and stops, leaving the
spoken token `one` unprocessed.  The claim says `one` (token 1 of the
new segment) is matched on the next call; in fact the next call with the
same transcript is a no-op and `matchedTokenCount` stays 1. -/
theorem c5_counterexample :
    (let ctx := mkCtx ("Hello world. Testing one two.".toList)
     let t := "Hello world Testing one".toList
     let s1 := consumeTranscriptDelta ctx initState t
     s1.activeSegmentIndex = 1 ∧ s1.matchedWordCount = 1 ∧
     consumeTranscriptDelta ctx s1 t = s1) := by
  decide

/-- Claim C1 (amended: a zero-token active segment counts as fully
complete — the source defaults `completionRatio` to 1 when
`currentTokens.length` is 0, so the gate `jumpEligible` is the exact
guard `idx < segments.length - 1 && (len = 0 || cmi / len > 0.6)`).
For a spoken token with no local match: under the gate, with a next
segment whose first 3 tokens are compared case-insensitively, a hit at
offset `j` ends the token loop at `jumped j` — independently of the
remaining spoken tokens — and the jump transition moves the machine to
`(idx + 1, j + 1)` clearing any pending timer; if the gate fails or the
first 3 tokens all miss, this token causes no jump. -/
theorem c1_cross_segment_jump (ctx : ScriptCtx) (idx : Int)
    (cur : List (List Char)) (tok : List Char) (rest : List (List Char))
    (cmi : Nat) (hnolocal : localSearch cur cmi (lowerStr tok) = none) :
    (∀ next j, getSeg ctx (idx + 1) = some next →
      jumpEligible ctx idx cur cmi = true →
      jumpSearch next (lowerStr tok) = some j →
      matchLoop ctx idx cur (tok :: rest) cmi = LoopResult.jumped j ∧
      j < 3 ∧ j < next.length) ∧
    (jumpEligible ctx idx cur cmi = false →
      matchLoop ctx idx cur (tok :: rest) cmi =
        matchLoop ctx idx cur rest cmi) ∧
    (∀ next, getSeg ctx (idx + 1) = some next →
      jumpSearch next (lowerStr tok) = none →
      matchLoop ctx idx cur (tok :: rest) cmi =
        matchLoop ctx idx cur rest cmi) ∧
    (∀ (st : MachineState) (j : Nat),
      applyLoopResult cur st (LoopResult.jumped j) =
        { st with activeSegmentIndex := st.activeSegmentIndex + 1,
                  matchedWordCount := j + 1, timer := TimerKind.noTimer }) := by
  refine ⟨?_, ?_, ?_, fun st j => rfl⟩
  · intro next j hnext helig hj
    obtain ⟨_, hj3, t, hget, _⟩ := jumpSearchAux_some (lowerStr tok) next 0 j hj
    refine ⟨?_, hj3, ?_⟩
    · rw [matchLoop]
      simp [hnolocal, helig, hnext, hj]
    · have := getElem?_lt_length hget
      omega
  · intro helig
    rw [matchLoop]
    simp [hnolocal, helig]
  · intro next hnext hj
    rw [matchLoop]
    cases hE : jumpEligible ctx idx cur cmi with
    | true => simp [hnolocal, hE, hnext, hj]
    | false => simp [hnolocal, hE]

/-- Witness for C1: script `"Go on. Stop now."`, active segment 0 fully
matched (2 of 2 tokens), spoken token `Stop` jumps to offset 0 of
segment 1. -/
theorem c1_witness :
    matchLoop (mkCtx ("Go on. Stop now.".toList)) 0 [['G','o'], ['o','n']]
      ["Stop".toList] 2 = LoopResult.jumped 0 ∧ (0 : Nat) < 3 := by
  have h := c1_cross_segment_jump (mkCtx ("Go on. Stop now.".toList)) 0
    [['G','o'], ['o','n']] ("Stop".toList) [] 2 (by decide)
  obtain ⟨ha, hb, _⟩ := h.1 [['S','t','o','p'], ['n','o','w']] 0
    (by decide) (by decide) (by decide)
  exact ⟨ha, hb⟩

/-- Counterexample to C1.  Script `"! Hello."`: segment 0 is `"!"` with
an empty token table, so the claim's ratio `matchedTokenCount /
tokenCount` is `0 / 0`, which does not exceed `0.6` — yet the source
(which defaults the ratio to 1 for an empty table) jumps into segment 1
on the very first spoken token. -/
theorem c1_counterexample :
    (consumeTranscriptDelta (mkCtx ("! Hello.".toList)) initState
      ("Hello".toList)).activeSegmentIndex = 1 ∧
    (mkCtx ("! Hello.".toList)).segmentTokensMap[(0 : Nat)]? = some [] ∧
    ¬ ((0 : ℚ) / 0 > 6 / 10) := by
  refine ⟨by decide, by decide, by norm_num⟩

/-- Claim C2 (amended: the active segment must have at least one token —
the source arms the debounce only under `currentTokens.length > 0` —
and the debounce is armed only when the timer slot is free; an occupied
slot is left untouched).  A token loop ending without a jump at
`cmi ≥ tokenCount` arms the auto-advance debounce when the slot is free
and schedules nothing when it is occupied; firing an armed auto-advance
timer advances the index by one capped at `segments.length` and resets
`matchedTokenCount` to 0; and in the terminal state an identical delta
(length at most the cursor) changes nothing. -/
theorem c2_auto_advance_debounce (ctx : ScriptCtx) :
    (∀ (st : MachineState) (cur : List (List Char)) (cmi : Nat),
      0 < cur.length → cur.length ≤ cmi → st.timer = TimerKind.noTimer →
      applyLoopResult cur st (LoopResult.done cmi) =
        { st with matchedWordCount := cmi,
                  timer := TimerKind.autoAdvance }) ∧
    (∀ (st : MachineState) (cur : List (List Char)) (cmi : Nat),
      st.timer ≠ TimerKind.noTimer →
      applyLoopResult cur st (LoopResult.done cmi) =
        { st with matchedWordCount := cmi }) ∧
    (∀ (segLen : Nat) (st : MachineState),
      st.timer = TimerKind.autoAdvance →
      fireTimer segLen st =
        { st with
            activeSegmentIndex :=
              min (st.activeSegmentIndex + 1) (segLen : Int),
            matchedWordCount := 0, timer := TimerKind.noTimer }) ∧
    (∀ (st : MachineState) (t : List Char),
      st.activeSegmentIndex = (ctx.segLen : Int) →
      t.length ≤ st.consumedLen → consumeTranscriptDelta ctx st t = st) := by
  refine ⟨?_, ?_, ?_, ?_⟩
  · intro st cur cmi h1 h2 h3
    rw [applyLoopResult]
    rw [if_pos ⟨h1, h2, h3⟩]
  · intro st cur cmi hocc
    rw [applyLoopResult]
    rw [if_neg fun hc => hocc hc.2.2]
  · intro segLen st h
    cases st with
    | mk i m c tm =>
      cases h
      rfl
  · intro st t _ h2
    exact consume_of_le ctx st t h2

/-- Witness for C2: a one-token segment fully matched with a free slot
arms the debounce, and firing it reaches the terminal state `(1, 0)`. -/
theorem c2_witness :
    applyLoopResult [['a']] ⟨0, 0, 1, TimerKind.noTimer⟩
      (LoopResult.done 1) = ⟨0, 1, 1, TimerKind.autoAdvance⟩ ∧
    fireTimer 1 ⟨0, 1, 1, TimerKind.autoAdvance⟩ =
      ⟨1, 0, 1, TimerKind.noTimer⟩ := by
  have h := c2_auto_advance_debounce (mkCtx ("Hi.".toList))
  constructor
  · rw [h.1 ⟨0, 0, 1, TimerKind.noTimer⟩ [['a']] 1 (by decide) (by decide) rfl]
  · rw [h.2.2.1 1 ⟨0, 1, 1, TimerKind.autoAdvance⟩ rfl]
    decide

/-- Counterexample to C2.  Script `"!"`: its only segment has an empty
token table.  The delta `"x"` is processed to completion without a jump
and ends with `matchedTokenCount = 0 ≥ 0 = tokenCount`, but no debounce
timer is armed (the source requires `currentTokens.length > 0`), so the
machine never reaches the terminal state `(1, 0)`. -/
theorem c2_counterexample :
    (let s1 := consumeTranscriptDelta (mkCtx ("!".toList)) initState
        ("x".toList)
     (mkCtx ("!".toList)).segmentTokensMap = [[]] ∧
     s1.timer = TimerKind.noTimer ∧ s1.activeSegmentIndex = 0 ∧
     fireTimer (mkCtx ("!".toList)).segLen s1 = s1) := by
  decide

/-- Claim C4, evaluated at the failing input (code bug).  Script `"Hi there. Next line."`, transcript
`"Hi there"`: segment 0 is fully matched, so the auto-advance debounce
is armed.  A manual advance (`handleManualScroll`) then moves to segment
1 — but the source never clears the pending timer, so when it fires it
advances again, to `(2, 0)`: the stale auto-advance fires against the
position the navigation moved to, exactly what the spec rules out. -/
theorem c4_manual_nav_leaves_timer_pending :
    (let ctx := mkCtx ("Hi there. Next line.".toList)
     let s1 := consumeTranscriptDelta ctx initState ("Hi there".toList)
     let s2 := handleManualScroll ctx.segLen true s1
     let s3 := fireTimer ctx.segLen s2
     s1 = ⟨0, 2, 8, TimerKind.autoAdvance⟩ ∧
     s2 = ⟨1, 0, 8, TimerKind.autoAdvance⟩ ∧
     s3 = ⟨2, 0, 8, TimerKind.noTimer⟩) := by
  decide

/-- Claim C7 (amended: the loop `for (offset = 0; offset <= 4)` examines
五 — five — positions, `matchedTokenCount` through `matchedTokenCount + 4`,
one more than a 4-token window).  `localSearch` returns exactly the first
position in that range, within the table, whose lowercased token equals
the spoken token; the token loop then continues with the match position
+ 1; and if every position of the range misses, no match is reported. -/
theorem c7_local_match_window (cur : List (List Char)) (cmi : Nat)
    (spoken : List Char) :
    (∀ p, localSearch cur cmi spoken = some p →
      cmi ≤ p ∧ p ≤ cmi + 4 ∧ p < cur.length ∧
      (∃ t, cur[p]? = some t ∧ lowerStr t = spoken) ∧
      ∀ q t, cmi ≤ q → q < p → cur[q]? = some t → lowerStr t ≠ spoken) ∧
    ((∀ q t, cmi ≤ q → q ≤ cmi + 4 → cur[q]? = some t →
      lowerStr t ≠ spoken) → localSearch cur cmi spoken = none) ∧
    (∀ (ctx : ScriptCtx) (idx : Int) (tok : List Char)
      (rest : List (List Char)) (p : Nat),
      localSearch cur cmi (lowerStr tok) = some p →
      matchLoop ctx idx cur (tok :: rest) cmi =
        matchLoop ctx idx cur rest (p + 1)) := by
  refine ⟨?_, ?_, ?_⟩
  · intro p hp
    obtain ⟨h1, h2, ⟨t, hget, ht⟩, h4⟩ := searchFrom_some cur spoken 5 cmi p hp
    exact ⟨h1, by omega, getElem?_lt_length hget, ⟨t, hget, ht⟩, h4⟩
  · intro hmiss
    exact searchFrom_none cur spoken 5 cmi
      fun q t hq hq2 => hmiss q t hq (by omega)
  · intro ctx idx tok rest p hp
    rw [matchLoop]
    simp [hp]

/-- Witness for C7: spoken `B` matches position 1 of `[a, b]`
case-insensitively and the loop resumes at position 2. -/
theorem c7_witness :
    ((0 : Nat) ≤ 1 ∧ 1 ≤ 0 + 4 ∧ 1 < 2) ∧
    matchLoop (mkCtx []) 0 [['a'], ['b']] [['B']] 0 =
      matchLoop (mkCtx []) 0 [['a'], ['b']] [] 2 := by
  obtain ⟨h1, h2, h3, _, _⟩ :=
    (c7_local_match_window [['a'], ['b']] 0 ['b']).1 1 (by decide)
  refine ⟨⟨h1, h2, h3⟩, ?_⟩
  have hstep := (c7_local_match_window [['a'], ['b']] 0 (lowerStr ['B'])).2.2
    (mkCtx []) 0 ['B'] [] 1 (by decide)
  exact hstep

/-- Counterexample to C7.  From `matchedTokenCount = 0` the source
accepts a match at position 4 — the fifth examined position — which lies
outside a 4-token window `{0, 1, 2, 3}`. -/
theorem c7_counterexample :
    localSearch [['a'], ['b'], ['c'], ['d'], ['e']] 0 ['e'] = some 4 ∧
    ¬ (4 < 0 + 4) := by
  decide

/-- Claim C9 (amended: segment 0 tokenizes to 4 ideographic tokens, not
5).  Over the script `你好世界。今天天气很好。` and the fully delivered
transcript `"你好世界 今天"`, the engine fully matches segment 0 (the
token loop over its 4 tokens ends at 4 = tokenCount) and then jumps into
segment 1 with its token at offset 0 matched. -/
theorem c9_cjk_full_match_and_jump :
    (let ctx := mkCtx ("你好世界。今天天气很好。".toList)
     let s1 := consumeTranscriptDelta ctx initState ("你好世界 今天".toList)
     segments ("你好世界。今天天气很好。".toList) =
       ["你好世界。".toList, "今天天气很好。".toList] ∧
     parseSegmentToTokens ("你好世界。".toList) =
       [['你'], ['好'], ['世'], ['界']] ∧
     matchLoop ctx 0 [['你'], ['好'], ['世'], ['界']]
       (parseSegmentToTokens ("你好世界".toList)) 0 = LoopResult.done 4 ∧
     s1.activeSegmentIndex = 1 ∧ s1.matchedWordCount = 1) := by
  decide

/-- Counterexample to C9.  `你好世界` is 4 characters; segment 0's token
table has 4 entries, not the claimed 5. -/
theorem c9_counterexample :
    (mkCtx ("你好世界。今天天气很好。".toList)).segmentTokensMap[(0 : Nat)]? =
      some [['你'], ['好'], ['世'], ['界']] ∧
    ¬ (((mkCtx
        ("你好世界。今天天气很好。".toList)).segmentTokensMap[(0 : Nat)]?).map
          List.length = some 5) := by
  decide

/-- Claim C10.  With at least one segment, a manual advance in the
terminal state computes `min(segments.length + 1, segments.length - 1)
= segments.length - 1`, an actual change, so `matchedTokenCount` resets
to 0; and any manual navigation from a state within bounds lands
strictly below `segments.length`, so navigation alone never puts or
keeps the machine in the terminal state. -/
theorem c10_manual_advance_at_terminal (segLen : Nat) (hlen : 1 ≤ segLen)
    (st : MachineState) (hterm : st.activeSegmentIndex = (segLen : Int)) :
    (handleManualScroll segLen true st).activeSegmentIndex =
      (segLen : Int) - 1 ∧
    (handleManualScroll segLen true st).matchedWordCount = 0 ∧
    ∀ (st2 : MachineState) (next : Bool), 0 ≤ st2.activeSegmentIndex →
      st2.activeSegmentIndex ≤ (segLen : Int) →
      (handleManualScroll segLen next st2).activeSegmentIndex <
        (segLen : Int) := by
  have hmin : min (st.activeSegmentIndex + 1) ((segLen : Int) - 1) =
      (segLen : Int) - 1 := by
    rw [hterm, min_def]
    split <;> omega
  have hne2 : min (st.activeSegmentIndex + 1) ((segLen : Int) - 1) ≠
      st.activeSegmentIndex := by
    rw [hmin, hterm]
    omega
  refine ⟨?_, ?_, ?_⟩
  · rw [handleManualScroll]
    rw [if_pos hne2]
    exact hmin
  · rw [handleManualScroll]
    rw [if_pos hne2]
  · intro st2 nxt h0 hl
    cases nxt with
    | true =>
      rw [handleManualScroll]
      split
      · show min (st2.activeSegmentIndex + 1) ((segLen : Int) - 1) <
          (segLen : Int)
        rw [min_def]
        split <;> omega
      · next h =>
        simp only [ne_eq, not_not] at h
        rw [min_def] at h
        split at h <;> omega
    | false =>
      rw [handleManualScroll]
      split
      · show max (st2.activeSegmentIndex - 1) 0 < (segLen : Int)
        rw [max_def]
        split <;> omega
      · next h =>
        simp only [ne_eq, not_not] at h
        rw [max_def] at h
        split at h <;> omega

/-- Witness for C10 at a one-segment script in its terminal state
`(1, 0)`: advance lands on segment 0 with the match count reset. -/
theorem c10_witness :
    (handleManualScroll 1 true ⟨1, 0, 0, TimerKind.noTimer⟩).activeSegmentIndex
      = 0 ∧
    (handleManualScroll 1 true ⟨1, 0, 0, TimerKind.noTimer⟩).matchedWordCount
      = 0 := by
  have h := c10_manual_advance_at_terminal 1 (by decide)
    ⟨1, 0, 0, TimerKind.noTimer⟩ (by decide)
  exact ⟨by rw [h.1]; decide, h.2.1⟩

/-!
## Segmenter reconstruction (C8)
-/

theorem splitSep_ne_nil : ∀ (l : List Char), splitSep l ≠ [] := by
  intro l
  cases l with
  | nil => simp [splitSep]
  | cons c rest =>
    rw [splitSep]
    split <;> simp

theorem headI_append_tail_flatten (r : List (List Char)) (hr : r ≠ []) :
    r.headI ++ r.tail.flatten = r.flatten := by
  cases r with
  | nil => exact absurd rfl hr
  | cons a as => simp

theorem flatten_splitSep : ∀ (l : List Char),
    (splitSep l).flatten = l.filter (fun c => !(c == '|')) := by
  intro l
  induction l with
  | nil => simp [splitSep]
  | cons c rest ih =>
    rw [splitSep]
    by_cases hc : c = '|'
    · rw [if_pos hc]
      subst hc
      simpa using ih
    · rw [if_neg hc]
      calc ((c :: (splitSep rest).headI) :: (splitSep rest).tail).flatten
          = c :: ((splitSep rest).headI ++ (splitSep rest).tail.flatten) := by
            simp
        _ = c :: (splitSep rest).flatten := by
            rw [headI_append_tail_flatten _ (splitSep_ne_nil rest)]
        _ = c :: rest.filter (fun c => !(c == '|')) := by rw [ih]
        _ = (c :: rest).filter (fun c => !(c == '|')) := by
            simp [List.filter_cons, hc]

theorem filter_dropWhile_ws (l : List Char) :
    (l.dropWhile isWhitespaceChar).filter (fun c => !isWhitespaceChar c) =
      l.filter (fun c => !isWhitespaceChar c) := by
  induction l with
  | nil => rfl
  | cons c rest ih =>
    by_cases hw : isWhitespaceChar c = true
    · rw [List.dropWhile_cons_of_pos hw, ih]
      simp [List.filter_cons, hw]
    · rw [List.dropWhile_cons_of_neg hw]

theorem filter_trimChars (l : List Char) :
    (trimChars l).filter (fun c => !isWhitespaceChar c) =
      l.filter (fun c => !isWhitespaceChar c) := by
  rw [trimChars]
  calc (((l.dropWhile isWhitespaceChar).reverse.dropWhile
          isWhitespaceChar).reverse).filter (fun c => !isWhitespaceChar c)
      = (((l.dropWhile isWhitespaceChar).reverse.dropWhile
          isWhitespaceChar).filter (fun c => !isWhitespaceChar c)).reverse :=
        List.filter_reverse _ _
    _ = (((l.dropWhile isWhitespaceChar).reverse).filter
          (fun c => !isWhitespaceChar c)).reverse := by
        rw [filter_dropWhile_ws]
    _ = (((l.dropWhile isWhitespaceChar).filter
          (fun c => !isWhitespaceChar c)).reverse).reverse := by
        rw [List.filter_reverse]
    _ = (l.dropWhile isWhitespaceChar).filter (fun c => !isWhitespaceChar c) :=
        List.reverse_reverse _
    _ = l.filter (fun c => !isWhitespaceChar c) := filter_dropWhile_ws l

theorem trimChars_nil_filter (p : List Char) (h : trimChars p = []) :
    p.filter (fun c => !isWhitespaceChar c) = [] := by
  rw [← filter_trimChars, h]
  rfl

theorem flatten_trim_filter : ∀ (ps : List (List Char)),
    ((((ps.map trimChars).filter (fun s => !s.isEmpty)).flatten).filter
        (fun c => !isWhitespaceChar c)) =
      (ps.flatten).filter (fun c => !isWhitespaceChar c) := by
  intro ps
  induction ps with
  | nil => rfl
  | cons p ps ih =>
    rw [List.map_cons, List.filter_cons]
    by_cases he : (trimChars p).isEmpty = true
    · have hp : trimChars p = [] := List.isEmpty_iff.mp he
      have hnot : ¬ ((!(trimChars p).isEmpty) = true) := by
        rw [he]
        decide
      rw [if_neg hnot, ih, List.flatten_cons, List.filter_append,
        trimChars_nil_filter p hp]
      rfl
    · have hcond : (!(trimChars p).isEmpty) = true := by
        cases hie : (trimChars p).isEmpty
        · rfl
        · exact absurd hie he
      rw [if_pos hcond, List.flatten_cons, List.filter_append,
        filter_trimChars, ih, List.flatten_cons, List.filter_append]

theorem terminal_not_ws (c : Char) (h : isTerminalPunct c = true) :
    isWhitespaceChar c = false ∧ (c == '|') = false := by
  rw [isTerminalPunct] at h
  simp only [Bool.or_eq_true, beq_iff_eq] at h
  rcases h with ((((h | h) | h) | h) | h) | h <;> subst h <;> decide

theorem insertSepGo_filter : ∀ (l : List Char) (skip : Bool), '|' ∉ l →
    (insertSepGo skip l).filter
        (fun c => !isWhitespaceChar c && !(c == '|')) =
      l.filter (fun c => !isWhitespaceChar c) := by
  intro l
  induction l with
  | nil => intro skip _; rfl
  | cons c rest ih =>
    intro skip hbar
    have hbc : ¬ c = '|' := fun h => hbar (by rw [h]; exact List.mem_cons_self _ _)
    have hbrest : '|' ∉ rest := fun h => hbar (List.mem_cons_of_mem c h)
    have hcb : (c == '|') = false := by
      simp [hbc]
    rw [insertSepGo]
    by_cases h1 : (skip && isWhitespaceChar c) = true
    · have hw : isWhitespaceChar c = true := (Bool.and_eq_true _ _ |>.mp h1).2
      rw [if_pos h1, ih true hbrest]
      simp [List.filter_cons, hw]
    · rw [if_neg h1]
      by_cases h2 : isTerminalPunct c = true
      · obtain ⟨hnw, hnb⟩ := terminal_not_ws c h2
        have hwsbar : isWhitespaceChar '|' = false := by decide
        rw [if_pos h2]
        simp [List.filter_cons, hnw, hnb, hwsbar, ih true hbrest]
      · rw [if_neg h2]
        by_cases h3 : isWhitespaceChar c = true
        · simp [List.filter_cons, h3, ih false hbrest]
        · have h3f : isWhitespaceChar c = false := by
            cases hx : isWhitespaceChar c
            · rfl
            · exact absurd hx h3
          simp [List.filter_cons, h3f, hcb, ih false hbrest]

/-- Claim C8 (amended: the script must not contain the separator character
`'|'`).  The segmenter is a pure Lean function (determinism and purity
are inherent to the embedding), and the concatenation of its output
segments reproduces the input's non-whitespace characters exactly and in
order — no loss, no duplication.  A script containing a literal `'|'`
loses it (the source splits on `'|'` after inserting it as its
separator), see the counterexample. -/
theorem c8_segmenter_reconstruction (script : List Char)
    (hbar : '|' ∉ script) :
    ((segments script).flatten).filter (fun c => !isWhitespaceChar c) =
      script.filter (fun c => !isWhitespaceChar c) := by
  rw [segments, flatten_trim_filter, flatten_splitSep, List.filter_filter]
  exact insertSepGo_filter script false hbar

/-- Witness for C8 on a concrete mixed script. -/
theorem c8_witness :
    ('|' ∉ ("Hi there. Ok.".toList)) ∧
    ((segments ("Hi there. Ok.".toList)).flatten).filter
        (fun c => !isWhitespaceChar c) =
      ("Hi there. Ok.".toList).filter (fun c => !isWhitespaceChar c) :=
  ⟨by decide, c8_segmenter_reconstruction ("Hi there. Ok.".toList) (by decide)⟩

/-- Counterexample to C8.  The script `"a|b"` contains `'|'`; the
segmenter splits at it, and the concatenated output `"ab"` loses the
non-whitespace character `'|'` of the input. -/
theorem c8_counterexample :
    segments ("a|b".toList) = ["a".toList, "b".toList] ∧
    ¬ (((segments ("a|b".toList)).flatten).filter
        (fun c => !isWhitespaceChar c) =
      ("a|b".toList).filter (fun c => !isWhitespaceChar c)) := by
  decide

end TuiliRec

